import Mathlib

/-!
Shallow embedding of `src/nautilus_core/model/src/identifiers/component_id.rs`.

`ComponentId` is a validated, interned string identifier.  The Rust code wraps a
`ustr::Ustr` handle; construction validates the raw string with the shared
predicate `check_valid_string` from `nautilus_core::correctness` and then
interns it.  The process-wide interning table is modelled as a list of strings
threaded through every operation as explicit state; a `Ustr` handle is an index
into that table.  A panic in `ComponentId::new` is modelled as `Option.none`.
-/

/-- A validation error carrying the failing field name and the offending value,
as produced by the shared correctness predicate. -/
structure ValidationError where
  field : String
  value : String
deriving DecidableEq

/-- Modelled from the spec: the shared validation predicate `check_valid_string`
from `nautilus_core::correctness` is not part of this excerpt.  Its minimum
contract per the spec is to reject the empty string and, on failure, to return
an error naming the failing field and the offending value. -/
def check_valid_string (s : String) (fieldName : String) :
    Except ValidationError Unit :=
  if s = ("") then Except.error ⟨fieldName, s⟩ else Except.ok ()

/-- The process-wide interning table: the list of canonical strings, in order of
first interning. -/
abbrev InternTable := List String

/-- A `ustr::Ustr` handle: an index into the interning table. -/
structure Ustr where
  idx : Nat
deriving DecidableEq

/-- Modelled from the spec: the interning service (`Ustr::from`) returns the
canonical handle for `s`, inserting `s` at the end of the table if it is not
already present; interning is idempotent and append-only. -/
def Ustr.intern (t : InternTable) (s : String) : InternTable × Ustr :=
  if s ∈ t then (t, ⟨List.indexOf s t⟩) else (t ++ [s], ⟨t.length⟩)

/-- `Ustr::as_str`: resolve a handle to its canonical string in the table. -/
def Ustr.as_str (t : InternTable) (u : Ustr) : String :=
  t.getD u.idx ("")

/-- `Ustr`'s `PartialEq`/`Eq`: handle (pointer) equality of interned strings. -/
def Ustr.beq (a b : Ustr) : Bool :=
  a.idx == b.idx

/-- A deterministic hash of string content (the concrete mixing constants are
irrelevant to every property proved here; what matters is that the hash is a
function of the resolved string alone, as `Ustr`'s `Hash` hashes the string's
precomputed content hash). -/
def strHash (s : String) : Nat :=
  s.data.foldl (fun h c => (h * 31 + c.toNat) % (2 ^ 64)) 5381

/-- `Ustr`'s `Hash`: a function of the resolved string content only. -/
def Ustr.hashVal (t : InternTable) (u : Ustr) : Nat :=
  strHash (Ustr.as_str t u)

/-- Lexicographic comparison of character lists: the char-level model of Rust's
`str::cmp` (byte-lexicographic over UTF-8, which orders exactly like
codepoint-lexicographic comparison). -/
def lexCmp : List Char → List Char → Ordering
  | [], [] => Ordering.eq
  | [], _ :: _ => Ordering.lt
  | _ :: _, [] => Ordering.gt
  | a :: as, b :: bs =>
      if a < b then Ordering.lt
      else if b < a then Ordering.gt
      else lexCmp as bs

/-- `Ustr`'s `Ord`: `self.as_str().cmp(other.as_str())`, comparing resolved
string content lexicographically. -/
def Ustr.cmp (t : InternTable) (a b : Ustr) : Ordering :=
  lexCmp (Ustr.as_str t a).data (Ustr.as_str t b).data

/-- `Ustr`'s `Display`: the resolved string itself. -/
def Ustr.display (t : InternTable) (u : Ustr) : String :=
  Ustr.as_str t u

/-- Modelled from the spec: `Ustr`'s `Debug` (delegating to `str`'s `Debug`)
renders the content in a quoted convention, distinguishable from the plain
string. -/
def Ustr.debugFmt (t : InternTable) (u : Ustr) : String :=
  ("\"") ++ Ustr.as_str t u ++ ("\"")

/-- Stripping the quoting convention: drop the opening and closing quote. -/
def stripQuotes (s : String) : String :=
  String.mk (s.data.drop 1).dropLast

/-- `pub struct ComponentId(Ustr)`: a component identifier wrapping one interned
string handle.  The projection `ComponentId.inner` is the source's
`ComponentId::inner`. -/
structure ComponentId where
  inner : Ustr
deriving DecidableEq

/-- `ComponentId::new_checked`: validate `value` with the shared predicate
(field name `stringify!(value)`, i.e. `"value"`), then intern it.  Returns the
updated table together with the result; on validation failure the error is
returned and the table is left untouched. -/
def ComponentId.new_checked (t : InternTable) (value : String) :
    InternTable × Except ValidationError ComponentId :=
  match check_valid_string value ("value") with
  | Except.error e => (t, Except.error e)
  | Except.ok _ =>
      let p := Ustr.intern t value
      (p.1, Except.ok ⟨p.2⟩)

/-- `ComponentId::new`: `Self::new_checked(value).expect(FAILED)`.  The panic on
an invalid value is modelled as `none`. -/
def ComponentId.new (t : InternTable) (value : String) :
    InternTable × Option ComponentId :=
  match ComponentId.new_checked t value with
  | (t', Except.ok id) => (t', some id)
  | (t', Except.error _) => (t', none)

/-- `ComponentId::set_inner`: `self.0 = Ustr::from(value)` — re-intern `value`
and replace the wrapped handle, with no validation. -/
def ComponentId.set_inner (t : InternTable) (_self : ComponentId)
    (value : String) : InternTable × ComponentId :=
  let p := Ustr.intern t value
  (p.1, ⟨p.2⟩)

/-- `ComponentId::as_str`: `self.0.as_str()`. -/
def ComponentId.as_str (t : InternTable) (self : ComponentId) : String :=
  Ustr.as_str t self.inner

/-- `ComponentId`'s derived `PartialEq`: delegates to `Ustr`'s. -/
def ComponentId.beq (a b : ComponentId) : Bool :=
  Ustr.beq a.inner b.inner

/-- `ComponentId`'s derived `Hash`: delegates to `Ustr`'s. -/
def ComponentId.hashVal (t : InternTable) (self : ComponentId) : Nat :=
  Ustr.hashVal t self.inner

/-- `ComponentId`'s derived `Ord`: delegates to `Ustr`'s. -/
def ComponentId.cmp (t : InternTable) (a b : ComponentId) : Ordering :=
  Ustr.cmp t a.inner b.inner

/-- `impl Display for ComponentId`: `write!(f, "\x7b\x7d", self.0)`. -/
def ComponentId.display (t : InternTable) (self : ComponentId) : String :=
  Ustr.display t self.inner

/-- `impl Debug for ComponentId`: `write!(f, "\x7b:?\x7d", self.0)`. -/
def ComponentId.debugFmt (t : InternTable) (self : ComponentId) : String :=
  Ustr.debugFmt t self.inner

/-- Interning a sequence of strings one after another: models any intervening
identifier constructions between two constructions of interest. -/
def internMany (t : InternTable) : List String → InternTable
  | [] => t
  | s :: rest => internMany (Ustr.intern t s).1 rest

/-!  Helper lemmas about the interning table. -/

theorem Ustr.as_str_intern (t : InternTable) (s : String) :
    Ustr.as_str (Ustr.intern t s).1 (Ustr.intern t s).2 = s := by
  unfold Ustr.intern Ustr.as_str
  by_cases h : s ∈ t
  · simp only [if_pos h]
    have hlt : List.indexOf s t < t.length := List.indexOf_lt_length.mpr h
    rw [List.getD_eq_getElem _ _ hlt]
    exact List.indexOf_get hlt
  · simp only [if_neg h]
    rw [List.getD_append_right _ _ _ _ (le_refl t.length)]
    simp

theorem Ustr.intern_extends (t : InternTable) (s : String) :
    ∃ u, (Ustr.intern t s).1 = t ++ u := by
  unfold Ustr.intern
  by_cases h : s ∈ t
  · exact ⟨[], by simp [h]⟩
  · exact ⟨[s], by simp [h]⟩

theorem Ustr.intern_mem (t : InternTable) (s : String) :
    s ∈ (Ustr.intern t s).1 := by
  unfold Ustr.intern
  by_cases h : s ∈ t
  · simp [h]
  · simp [h]

theorem Ustr.intern_idx (t : InternTable) (s : String) :
    (Ustr.intern t s).2.idx = List.indexOf s (Ustr.intern t s).1 := by
  unfold Ustr.intern
  by_cases h : s ∈ t
  · simp [h]
  · simp only [if_neg h]
    rw [List.indexOf_append_of_not_mem h]
    simp [List.indexOf_cons]

theorem internMany_extends (ss : List String) (t : InternTable) :
    ∃ u, internMany t ss = t ++ u := by
  induction ss generalizing t with
  | nil => exact ⟨[], by simp [internMany]⟩
  | cons s rest ih =>
      obtain ⟨u1, hu1⟩ := Ustr.intern_extends t s
      obtain ⟨u2, hu2⟩ := ih (Ustr.intern t s).1
      exact ⟨u1 ++ u2, by rw [internMany, hu2, hu1, List.append_assoc]⟩

theorem new_checked_ok_inv (t t' : InternTable) (s : String) (id : ComponentId)
    (h : ComponentId.new_checked t s = (t', Except.ok id)) :
    check_valid_string s ("value") = Except.ok () ∧
      t' = (Ustr.intern t s).1 ∧ id = ⟨(Ustr.intern t s).2⟩ := by
  unfold ComponentId.new_checked at h
  cases hc : check_valid_string s ("value") with
  | error e =>
      rw [hc] at h
      simp at h
  | ok u =>
      cases u
      rw [hc] at h
      simp at h
      exact ⟨rfl, h.1.symm, h.2.symm⟩

/-- Claim C1: for every string accepted by the shared validation predicate,
`new_checked` succeeds and the resulting identifier resolves, via `as_str`,
to exactly the input string. -/
theorem new_checked_accepts_valid (t : InternTable) (s : String)
    (h : check_valid_string s ("value") = Except.ok ()) :
    ∃ t' id, ComponentId.new_checked t s = (t', Except.ok id) ∧
      ComponentId.as_str t' id = s := by
  refine ⟨(Ustr.intern t s).1, ⟨(Ustr.intern t s).2⟩, ?_, Ustr.as_str_intern t s⟩
  unfold ComponentId.new_checked
  rw [h]

/-- Witness for C1 at the spec's concrete scenario `"RiskEngine"`. -/
theorem new_checked_accepts_valid_witness :
    ∃ t' id, ComponentId.new_checked [] ("RiskEngine") = (t', Except.ok id) ∧
      ComponentId.as_str t' id = ("RiskEngine") :=
  new_checked_accepts_valid [] ("RiskEngine") rfl

/-- Claim C3: `new_checked("")` always fails, whatever the table state, with a
validation error naming the failing field and the offending empty value, and
the table is unchanged. -/
theorem new_checked_empty_fails (t : InternTable) :
    ∃ e, ComponentId.new_checked t ("") = (t, Except.error e) ∧
      e.field = ("value") ∧ e.value = ("") :=
  ⟨⟨("value"), ("")⟩, rfl, rfl, rfl⟩

/-- Claim C4: `new` (whose panic is modelled as `none`) returns a value exactly
when the shared validation predicate accepts the input, and aborts exactly when
it rejects it. -/
theorem new_aborts_iff_rejected (t : InternTable) (s : String) :
    (ComponentId.new t s).2.isSome = true ↔
      check_valid_string s ("value") = Except.ok () := by
  unfold ComponentId.new ComponentId.new_checked
  cases hc : check_valid_string s ("value") with
  | error e => simp [hc]
  | ok u => cases u; simp [hc]

/-- Claim C8: `new` is a thin unwrap-or-abort adapter over `new_checked`: any
success of `new_checked` is returned by `new` unchanged, identifier and table
state alike. -/
theorem new_unwrap_adapter (t t' : InternTable) (s : String) (id : ComponentId)
    (h : ComponentId.new_checked t s = (t', Except.ok id)) :
    ComponentId.new t s = (t', some id) := by
  unfold ComponentId.new
  rw [h]

/-- Witness for C8 at input `"RiskEngine"` on the empty table. -/
theorem new_unwrap_adapter_witness :
    ComponentId.new [] ("RiskEngine") = (["RiskEngine"], some ⟨⟨0⟩⟩) :=
  new_unwrap_adapter [] (["RiskEngine"]) ("RiskEngine") ⟨⟨0⟩⟩ rfl

/-- Claim C9: `set_inner` validates nothing: for every string `v`, including
the empty (predicate-rejected) string, it succeeds and `as_str` afterwards
returns exactly `v`; in particular after `set_inner("")` the stored value no
longer satisfies the validation predicate. -/
theorem set_inner_no_validation (t : InternTable) (id : ComponentId)
    (v : String) :
    ComponentId.as_str (ComponentId.set_inner t id v).1
        (ComponentId.set_inner t id v).2 = v ∧
      check_valid_string
          (ComponentId.as_str (ComponentId.set_inner t id ("")).1
            (ComponentId.set_inner t id ("")).2) ("value") =
        Except.error ⟨("value"), ("")⟩ := by
  constructor
  · exact Ustr.as_str_intern t v
  · have h0 : ComponentId.as_str (ComponentId.set_inner t id ("")).1
        (ComponentId.set_inner t id ("")).2 = ("") := Ustr.as_str_intern t ("")
    rw [h0]
    rfl

/-- Claim C10: `new_checked` is atomic on failure: a rejected string is
returned as an error with the interning table exactly as it was, so nothing is
interned on the error path. -/
theorem new_checked_error_atomic (t : InternTable) (s : String)
    (e : ValidationError)
    (h : check_valid_string s ("value") = Except.error e) :
    ComponentId.new_checked t s = (t, Except.error e) := by
  unfold ComponentId.new_checked
  rw [h]

/-- Witness for C10 at the rejected input `""`. -/
theorem new_checked_error_atomic_witness :
    ComponentId.new_checked [] ("") = ([], Except.error ⟨("value"), ("")⟩) :=
  new_checked_error_atomic [] ("") ⟨("value"), ("")⟩ rfl

/-!  Lexicographic comparison lemmas. -/

theorem lexCmp_eq_iff (a b : List Char) : lexCmp a b = Ordering.eq ↔ a = b := by
  induction a generalizing b with
  | nil => cases b <;> simp [lexCmp]
  | cons x xs ih =>
      cases b with
      | nil => simp [lexCmp]
      | cons y ys =>
          by_cases hxy : x < y
          · simp [lexCmp, hxy, ne_of_lt hxy]
          · by_cases hyx : y < x
            · simp [lexCmp, hxy, hyx, Ne.symm (ne_of_lt hyx)]
            · have hx : x = y := le_antisymm (not_lt.mp hyx) (not_lt.mp hxy)
              simp [lexCmp, hxy, hyx, hx, ih]

theorem lexCmp_lt_iff (a b : List Char) :
    lexCmp a b = Ordering.lt ↔ List.Lex (fun c d => c < d) a b := by
  induction a generalizing b with
  | nil =>
      cases b with
      | nil =>
          simp only [lexCmp]
          exact iff_of_false (by simp) (List.Lex.not_nil_right _ _)
      | cons y ys =>
          simp only [lexCmp]
          exact iff_of_true (by trivial) List.Lex.nil
  | cons x xs ih =>
      cases b with
      | nil =>
          simp only [lexCmp]
          exact iff_of_false (by simp) (List.Lex.not_nil_right _ _)
      | cons y ys =>
          by_cases hxy : x < y
          · simp only [lexCmp, if_pos hxy]
            exact iff_of_true (by trivial) (List.Lex.rel hxy)
          · by_cases hyx : y < x
            · simp only [lexCmp, if_neg hxy, if_pos hyx]
              refine iff_of_false (by simp) ?_
              intro hlex
              cases hlex with
              | cons h => exact lt_irrefl x hyx
              | rel h => exact absurd h hxy
            · have hx : x = y := le_antisymm (not_lt.mp hyx) (not_lt.mp hxy)
              subst hx
              simp only [lexCmp, if_neg hxy, if_neg hyx]
              constructor
              · intro h
                exact List.Lex.cons ((ih ys).mp h)
              · intro hlex
                cases hlex with
                | cons h => exact (ih ys).mpr h
                | rel h => exact absurd h hxy

theorem lexCmp_gt_iff (a b : List Char) :
    lexCmp a b = Ordering.gt ↔ List.Lex (fun c d => c < d) b a := by
  induction a generalizing b with
  | nil =>
      cases b with
      | nil =>
          simp only [lexCmp]
          exact iff_of_false (by simp) (List.Lex.not_nil_right _ _)
      | cons y ys =>
          simp only [lexCmp]
          exact iff_of_false (by simp) (List.Lex.not_nil_right _ _)
  | cons x xs ih =>
      cases b with
      | nil =>
          simp only [lexCmp]
          exact iff_of_true (by trivial) List.Lex.nil
      | cons y ys =>
          by_cases hxy : x < y
          · simp only [lexCmp, if_pos hxy]
            refine iff_of_false (by simp) ?_
            intro hlex
            cases hlex with
            | cons h => exact lt_irrefl x hxy
            | rel h => exact absurd h (asymm hxy)
          · by_cases hyx : y < x
            · simp only [lexCmp, if_neg hxy, if_pos hyx]
              exact iff_of_true (by trivial) (List.Lex.rel hyx)
            · have hx : x = y := le_antisymm (not_lt.mp hyx) (not_lt.mp hxy)
              subst hx
              simp only [lexCmp, if_neg hxy, if_neg hyx]
              constructor
              · intro h
                exact List.Lex.cons ((ih ys).mp h)
              · intro hlex
                cases hlex with
                | cons h => exact (ih ys).mpr h
                | rel h => exact absurd h hxy

/-- Claim C5: the total ordering between two identifiers is exactly the
lexicographic ordering of the strings returned by `as_str` (Lean's canonical
string order: `<` on `String` is lexicographic on the character data). -/
theorem ordering_lexicographic (t : InternTable) (x y : ComponentId) :
    (ComponentId.cmp t x y = Ordering.lt ↔
        ComponentId.as_str t x < ComponentId.as_str t y) ∧
      (ComponentId.cmp t x y = Ordering.eq ↔
        ComponentId.as_str t x = ComponentId.as_str t y) ∧
      (ComponentId.cmp t x y = Ordering.gt ↔
        ComponentId.as_str t y < ComponentId.as_str t x) := by
  refine ⟨?_, ?_, ?_⟩
  · exact (lexCmp_lt_iff (ComponentId.as_str t x).data
      (ComponentId.as_str t y).data).trans String.lt_iff_toList_lt.symm
  · exact (lexCmp_eq_iff (ComponentId.as_str t x).data
      (ComponentId.as_str t y).data).trans String.ext_iff.symm
  · exact (lexCmp_gt_iff (ComponentId.as_str t x).data
      (ComponentId.as_str t y).data).trans String.lt_iff_toList_lt.symm

/-- Claim C2: identifiers built from equal strings — at different times, with
arbitrary intervening interning of other strings — are equal, hash equal, and
compare as equal under the total ordering. -/
theorem equal_strings_equal_ids (t0 t1 t3 : InternTable) (a b : String)
    (ss : List String) (id1 id2 : ComponentId) (hab : a = b)
    (h1 : ComponentId.new_checked t0 a = (t1, Except.ok id1))
    (h2 : ComponentId.new_checked (internMany t1 ss) b = (t3, Except.ok id2)) :
    id1 = id2 ∧ ComponentId.beq id1 id2 = true ∧
      ComponentId.hashVal t3 id1 = ComponentId.hashVal t3 id2 ∧
      ComponentId.cmp t3 id1 id2 = Ordering.eq := by
  subst hab
  obtain ⟨hc1, ht1, hid1⟩ := new_checked_ok_inv t0 t1 a id1 h1
  obtain ⟨hc2, ht3, hid2⟩ := new_checked_ok_inv (internMany t1 ss) t3 a id2 h2
  have hmem1 : a ∈ t1 := ht1 ▸ Ustr.intern_mem t0 a
  obtain ⟨u, hu⟩ := internMany_extends ss t1
  have hmem2 : a ∈ internMany t1 ss := hu ▸ List.mem_append_left u hmem1
  have hintern2 : Ustr.intern (internMany t1 ss) a =
      (internMany t1 ss, ⟨List.indexOf a (internMany t1 ss)⟩) := by
    simp [Ustr.intern, hmem2]
  have hidx1 : id1.inner.idx = List.indexOf a t1 := by
    rw [hid1]
    show (Ustr.intern t0 a).2.idx = _
    rw [Ustr.intern_idx t0 a, ← ht1]
  have hidx2 : id2.inner.idx = List.indexOf a t1 := by
    rw [hid2, hintern2]
    show List.indexOf a (internMany t1 ss) = _
    rw [hu, List.indexOf_append_of_mem hmem1]
  have hids : id1 = id2 := by
    have hnn : id1.inner.idx = id2.inner.idx := by rw [hidx1, hidx2]
    exact congrArg (fun n : Nat => ComponentId.mk ⟨n⟩) hnn
  refine ⟨hids, ?_, ?_, ?_⟩
  · rw [hids]
    simp [ComponentId.beq, Ustr.beq]
  · rw [hids]
  · rw [hids]
    exact (lexCmp_eq_iff (ComponentId.as_str t3 id2).data
      (ComponentId.as_str t3 id2).data).mpr rfl

/-- Witness for C2: two identifiers from `"RiskEngine"`, with an intervening
construction of `"Throttler"`, coincide in every respect. -/
theorem equal_strings_equal_ids_witness :
    (⟨⟨0⟩⟩ : ComponentId) = ⟨⟨0⟩⟩ ∧
      ComponentId.beq ⟨⟨0⟩⟩ ⟨⟨0⟩⟩ = true ∧
      ComponentId.hashVal ["RiskEngine", "Throttler"] ⟨⟨0⟩⟩ =
        ComponentId.hashVal ["RiskEngine", "Throttler"] ⟨⟨0⟩⟩ ∧
      ComponentId.cmp ["RiskEngine", "Throttler"] ⟨⟨0⟩⟩ ⟨⟨0⟩⟩ = Ordering.eq :=
  equal_strings_equal_ids [] (["RiskEngine"]) (["RiskEngine", "Throttler"])
    ("RiskEngine") ("RiskEngine") (["Throttler"]) ⟨⟨0⟩⟩ ⟨⟨0⟩⟩ rfl rfl rfl

/-- Claim C6: for an identifier constructed from a validated string `s`, the
`Display` output is byte-identical to `s`, with no decoration. -/
theorem display_exact (t t' : InternTable) (s : String) (id : ComponentId)
    (h : ComponentId.new_checked t s = (t', Except.ok id)) :
    ComponentId.display t' id = s := by
  obtain ⟨hc, ht, hid⟩ := new_checked_ok_inv t t' s id h
  subst ht
  subst hid
  exact Ustr.as_str_intern t s

/-- Witness for C6 at the spec's concrete scenario `"RiskEngine"`. -/
theorem display_exact_witness :
    ComponentId.display ["RiskEngine"] ⟨⟨0⟩⟩ = ("RiskEngine") :=
  display_exact [] (["RiskEngine"]) ("RiskEngine") ⟨⟨0⟩⟩ rfl

/-- Claim C7: for an identifier constructed from a validated string `s`, the
`Debug` output is syntactically distinct from `s` (it is quoted) yet encodes
exactly `s`, recoverable by stripping the quoting convention. -/
theorem debug_quoted (t t' : InternTable) (s : String) (id : ComponentId)
    (h : ComponentId.new_checked t s = (t', Except.ok id)) :
    ComponentId.debugFmt t' id ≠ s ∧
      stripQuotes (ComponentId.debugFmt t' id) = s := by
  obtain ⟨hc, ht, hid⟩ := new_checked_ok_inv t t' s id h
  subst ht
  subst hid
  have hAs : Ustr.as_str (Ustr.intern t s).1 (Ustr.intern t s).2 = s :=
    Ustr.as_str_intern t s
  have hq : (("\"") : String).data = ['"'] := rfl
  have hd : (ComponentId.debugFmt (Ustr.intern t s).1
      ⟨(Ustr.intern t s).2⟩).data = ['"'] ++ (s.data ++ ['"']) := by
    show (("\"") ++ Ustr.as_str (Ustr.intern t s).1 (Ustr.intern t s).2
        ++ ("\"")).data = _
    rw [hAs, String.data_append, String.data_append, hq, List.append_assoc]
  constructor
  · intro hEq
    have h2 : ['"'] ++ (s.data ++ ['"']) = s.data := by
      rw [← hd, hEq]
    have h3 := congrArg List.length h2
    simp [List.length_append] at h3
    omega
  · show String.mk (((ComponentId.debugFmt (Ustr.intern t s).1
        ⟨(Ustr.intern t s).2⟩).data.drop 1).dropLast) = s
    rw [hd]
    simp only [List.singleton_append, List.drop_succ_cons, List.drop_zero,
      List.dropLast_concat]

/-- Witness for C7 at the spec's concrete scenario `"RiskEngine"`. -/
theorem debug_quoted_witness :
    ComponentId.debugFmt ["RiskEngine"] ⟨⟨0⟩⟩ ≠ ("RiskEngine") ∧
      stripQuotes (ComponentId.debugFmt ["RiskEngine"] ⟨⟨0⟩⟩) = ("RiskEngine") :=
  debug_quoted [] (["RiskEngine"]) ("RiskEngine") ⟨⟨0⟩⟩ rfl
